import Mathlib

/-!
Verification of the BartoBOT blackjack engine.

This file embeds the blackjack core of the repository — the card/deck model,
the hand scorer with soft-ace handling, the session state machine in
`BlackjackManager` (start_game / hit / stand / end_game), and the stats
ledger in `BlackjackStats` — as executable Lean definitions, and proves (or
refutes) the specified properties about them.

Modelling notes:
* Python dictionaries (`self.games`, `self.stats`) are modelled as functions
  into `Option`.
* `random.shuffle` is modelled by an explicit `shuffle` parameter; theorems
  that need the shuffled deck to be a permutation of the fresh deck take that
  as a hypothesis.
* Game statuses are the literal strings the code stores ("playing",
  "player_win", "dealer_win", "tie").
* File persistence in `BlackjackStats._save_stats` is out of scope: the
  ledger is modelled by its in-memory dictionary.
-/

namespace BartoBot

/-- One of the four card suits (`suits` list in `_create_deck`). -/
inductive Suit where
  | hearts | diamonds | clubs | spades
deriving DecidableEq, Repr, Fintype

/-- A card rank: the `value` strings '2'..'10', 'J', 'Q', 'K', 'A'. -/
inductive Rank where
  | two | three | four | five | six | seven | eight | nine | ten
  | jack | queen | king | ace
deriving DecidableEq, Repr, Fintype

/-- A playing card (`Card.__init__`): a suit and a rank. -/
structure Card where
  suit : Suit
  rank : Rank
deriving DecidableEq, Repr, Fintype

/-- `Card._get_numeric_value`: J/Q/K are 10, A is 11, numerals are themselves. -/
def Card.numericValue (c : Card) : Nat :=
  match c.rank with
  | .two => 2 | .three => 3 | .four => 4 | .five => 5 | .six => 6
  | .seven => 7 | .eight => 8 | .nine => 9 | .ten => 10
  | .jack => 10 | .queen => 10 | .king => 10
  | .ace => 11

/-- First loop of `_calculate_hand_value`: the sum of the `numeric_value`s of
the non-Ace cards of the hand. -/
def sumNonAces : List Card → Nat
  | [] => 0
  | c :: cs => (if c.rank = Rank.ace then 0 else c.numericValue) + sumNonAces cs

/-- First loop of `_calculate_hand_value`: the number of Aces in the hand. -/
def countAces : List Card → Nat
  | [] => 0
  | c :: cs => (if c.rank = Rank.ace then 1 else 0) + countAces cs

/-- Second loop of `_calculate_hand_value` (`for _ in range(aces)`): starting
from `(final_value, soft_aces)`, each Ace adds 11 (and counts as soft) when
`final_value + 11 <= 21`, else adds 1. -/
def acesLoop : Nat → Nat × Nat → Nat × Nat
  | 0, s => s
  | n + 1, (fv, sa) =>
      if fv + 11 ≤ 21 then acesLoop n (fv + 11, sa + 1) else acesLoop n (fv + 1, sa)

/-- `_calculate_hand_value(hand, count_aces=True)`: the pair
`(final_value, soft_aces)`. -/
def calcHandValueAces (hand : List Card) : Nat × Nat :=
  acesLoop (countAces hand) (sumNonAces hand, 0)

/-- `_calculate_hand_value(hand)`: just the final value. -/
def calcHandValue (hand : List Card) : Nat :=
  (calcHandValueAces hand).1

/-- Modelled from the spec (reference policy for the scorer, not code of the
repository): "use as many Aces as possible as 11 without busting, overflow the
rest as 1" — the largest `k ≤ aces` with `nonAces + 11*k + (aces-k) ≤ 21`
(0 when no `k` avoids busting), scored as `nonAces + 11*k + (aces-k)`. -/
def refHandValue (hand : List Card) : Nat :=
  let v := sumNonAces hand
  let m := countAces hand
  let ks := (List.range (m + 1)).filter fun k => v + 11 * k + (m - k) ≤ 21
  let kstar := ks.foldl max 0
  v + 11 * kstar + (m - kstar)

/-- A concrete three-card hand: ten of spades plus two aces. -/
def tenAceAce : List Card :=
  [⟨Suit.spades, Rank.ten⟩, ⟨Suit.hearts, Rank.ace⟩, ⟨Suit.diamonds, Rank.ace⟩]

/-- The `suits` list of `_create_deck`. -/
def suitsList : List Suit :=
  [Suit.hearts, Suit.diamonds, Suit.clubs, Suit.spades]

/-- The `values` list of `_create_deck`. -/
def ranksList : List Rank :=
  [Rank.two, Rank.three, Rank.four, Rank.five, Rank.six, Rank.seven, Rank.eight,
   Rank.nine, Rank.ten, Rank.jack, Rank.queen, Rank.king, Rank.ace]

/-- The comprehension `[Card(suit, value) for suit in suits for value in values]`
of `_create_deck`, before shuffling. -/
def fullDeck : List Card :=
  suitsList.flatMap fun s => ranksList.map fun r => Card.mk s r

/-- `_create_deck`: build the 52-card deck and shuffle it.  `random.shuffle` is
modelled by the explicit `shuffle` parameter. -/
def createDeck (shuffle : List Card → List Card) : List Card :=
  shuffle fullDeck

/-- `_is_blackjack`: exactly two cards whose value is 21. -/
def isBlackjack (hand : List Card) : Bool :=
  hand.length = 2 && calcHandValue hand = 21

/-- `_has_ten_or_ace`: a 10-value card or an Ace. -/
def hasTenOrAce (c : Card) : Bool :=
  c.numericValue ≥ 10 || c.rank = Rank.ace

/-- `_draw_card`: if the deck is empty, rebuild it with `_create_deck`; then
pop (remove and return) the last card, or return `none` if the deck is still
empty.  Returns the drawn card together with the deck left behind. -/
def drawCard (shuffle : List Card → List Card) (deck : List Card) :
    Option Card × List Card :=
  let d := if deck.isEmpty then createDeck shuffle else deck
  if d.isEmpty then (none, d) else (d.getLast?, d.dropLast)

/-- `n` successive `_draw_card` calls, collecting the drawn cards in order
(stopping early should a draw ever fail). -/
def drawCards (shuffle : List Card → List Card) : Nat → List Card → List Card × List Card
  | 0, deck => ([], deck)
  | n + 1, deck =>
      match drawCard shuffle deck with
      | (none, d1) => ([], d1)
      | (some c, d1) =>
          let (cs, d2) := drawCards shuffle n d1
          (c :: cs, d2)

/-- One player's `{'wins': …, 'losses': …, 'draws': …}` record in
`BlackjackStats.stats`. -/
structure PlayerStats where
  wins : Int
  losses : Int
  draws : Int
deriving DecidableEq, Repr

/-- The `BlackjackStats.stats` dictionary: player-id string to record. -/
def StatsStore : Type :=
  String → Option PlayerStats

/-- The empty stats store (`_load_stats` with no file). -/
def emptyStats : StatsStore :=
  fun _ => none

/-- Dictionary update at one string key. -/
def setStat (s : StatsStore) (k : String) (v : PlayerStats) : StatsStore :=
  fun k2 => if k2 = k then some v else s k2

/-- `BlackjackStats.get_player_stats`: return the record for `pid`, first
inserting an all-zero record when `pid` is absent.  Returns the record and the
(possibly extended) store. -/
def getPlayerStats (s : StatsStore) (pid : String) : PlayerStats × StatsStore :=
  match s pid with
  | some r => (r, s)
  | none => (⟨0, 0, 0⟩, setStat s pid ⟨0, 0, 0⟩)

/-- `BlackjackStats.update_stats`: fetch (lazily creating) the record for
`pid`, then increment the counter matching `game_result` in place — `wins` for
"player_win", `losses` for "dealer_win", `draws` for "tie", nothing for any
other string. -/
def updateStats (s : StatsStore) (pid : String) (game_result : String) : StatsStore :=
  let p := getPlayerStats s pid
  let r := p.1
  let r2 :=
    if game_result = "player_win" then { r with wins := r.wins + 1 }
    else if game_result = "dealer_win" then { r with losses := r.losses + 1 }
    else if game_result = "tie" then { r with draws := r.draws + 1 }
    else r
  setStat p.2 pid r2

/-- Effective wins counter of `pid` (0 when no record exists yet). -/
def statWins (s : StatsStore) (pid : String) : Int :=
  match s pid with
  | some r => r.wins
  | none => 0

/-- Effective losses counter of `pid` (0 when no record exists yet). -/
def statLosses (s : StatsStore) (pid : String) : Int :=
  match s pid with
  | some r => r.losses
  | none => 0

/-- Effective draws counter of `pid` (0 when no record exists yet). -/
def statDraws (s : StatsStore) (pid : String) : Int :=
  match s pid with
  | some r => r.draws
  | none => 0

/-- Stats stores reachable from the empty store through the two ledger
operations. -/
inductive ReachableStats : StatsStore → Prop where
  | empty : ReachableStats emptyStats
  | update (s : StatsStore) (pid game_result : String) :
      ReachableStats s → ReachableStats (updateStats s pid game_result)
  | get (s : StatsStore) (pid : String) :
      ReachableStats s → ReachableStats (getPlayerStats s pid).2

/-- One blackjack session: the `game_state` dict of `start_game`.  The status
is the literal string the code stores. -/
structure GameState where
  player_hand : List Card
  dealer_hand : List Card
  status : String
deriving DecidableEq, Repr

/-- The mutable state of a `BlackjackManager`: the `games` dictionary, the
deck, and the stats ledger. -/
structure BJState where
  games : Int → Option GameState
  deck : List Card
  stats : StatsStore

/-- Dictionary update of the `games` dictionary at one player id
(`none` models `del`). -/
def setGame (g : Int → Option GameState) (k : Int) (v : Option GameState) :
    Int → Option GameState :=
  fun k2 => if k2 = k then v else g k2

/-- `start_game`: `none` for the crash that a failed draw would cause (a
`None` card entering a hand); otherwise `some (ret, st2)` with `ret` the
Python return value (`None` = "already active") and `st2` the updated state.
Deals two cards to the player then two to the dealer, resolves natural
blackjacks immediately, stores the session. -/
def startGame (shuffle : List Card → List Card) (st : BJState) (pid : Int) :
    Option (Option GameState × BJState) :=
  if (st.games pid).isSome then some (none, st)
  else
    let d0 := if st.deck.isEmpty then createDeck shuffle else st.deck
    match drawCard shuffle d0 with
    | (none, _) => none
    | (some c1, d1) =>
    match drawCard shuffle d1 with
    | (none, _) => none
    | (some c2, d2) =>
    match drawCard shuffle d2 with
    | (none, _) => none
    | (some c3, d3) =>
    match drawCard shuffle d3 with
    | (none, _) => none
    | (some c4, d4) =>
      let player_hand := [c1, c2]
      let dealer_hand := [c3, c4]
      let status :=
        if isBlackjack player_hand then
          if hasTenOrAce c3 then
            if isBlackjack dealer_hand then "tie" else "player_win"
          else "player_win"
        else if isBlackjack dealer_hand then "dealer_win"
        else "playing"
      let g : GameState := ⟨player_hand, dealer_hand, status⟩
      some (some g, ⟨setGame st.games pid (some g), d4, st.stats⟩)

/-- All Aces counted as 1: the least possible value of the hand (the "hard
total" of the spec's glossary, the loop's termination measure). -/
def hardValue (hand : List Card) : Nat :=
  sumNonAces hand + countAces hand

/-- The dealer auto-play loop inside `stand`: while the (soft-aware) dealer
value is below 17, draw a card and append it to the dealer hand; stop at 17 or
higher, or should a draw ever fail.  Returns the final dealer hand and deck. -/
def dealerLoop (shuffle : List Card → List Card) (hand deck : List Card) :
    List Card × List Card :=
  if h17 : (calcHandValueAces hand).1 ≥ 17 then (hand, deck)
  else
    match drawCard shuffle deck with
    | (none, d1) => (hand, d1)
    | (some c, d1) => dealerLoop shuffle (hand ++ [c]) d1
termination_by 17 - hardValue hand
decreasing_by
  have hmin : ∀ e : Card, 1 ≤ e.numericValue := by
    intro e
    rcases e with ⟨s, r⟩
    cases r <;> simp [Card.numericValue]
  have happ : ∀ l : List Card, hardValue l + 1 ≤ hardValue (l ++ [c]) := by
    intro l
    induction l with
    | nil =>
        have := hmin c
        simp only [hardValue, sumNonAces, countAces, List.nil_append]
        by_cases hc : c.rank = Rank.ace
        · simp [hc]
        · simp only [if_neg hc]
          omega
    | cons d ds ih =>
        simp only [hardValue, sumNonAces, countAces, List.cons_append,
          List.append_eq] at ih ⊢
        omega
  have hloop : ∀ n fv sa : Nat, fv + n ≤ (acesLoop n (fv, sa)).1 := by
    intro n
    induction n with
    | zero =>
        intro fv sa
        simp [acesLoop]
    | succ m ih =>
        intro fv sa
        simp only [acesLoop]
        by_cases hb : fv + 11 ≤ 21
        · have := ih (fv + 11) (sa + 1)
          simp only [if_pos hb]
          omega
        · have := ih (fv + 1) sa
          simp only [if_neg hb]
          omega
  have h2 : hardValue hand ≤ (calcHandValueAces hand).1 := by
    have := hloop (countAces hand) (sumNonAces hand) 0
    simpa [calcHandValueAces, hardValue] using this
  have := happ hand
  omega

/-- `stand`: no-op returning `none` when the session is missing or not
playing; otherwise run the dealer loop, then set the status by comparing the
final dealer value with the player value, store and return the session.
(The embed/message edits are presentation only and are not modelled.) -/
def standGame (shuffle : List Card → List Card) (st : BJState) (pid : Int) :
    Option GameState × BJState :=
  match st.games pid with
  | none => (none, st)
  | some game =>
      if game.status ≠ "playing" then (none, st)
      else
        let player_value := calcHandValue game.player_hand
        let p := dealerLoop shuffle game.dealer_hand st.deck
        let dealer_value := calcHandValue p.1
        let status :=
          if dealer_value > 21 then "player_win"
          else if dealer_value > player_value then "dealer_win"
          else if dealer_value < player_value then "player_win"
          else "tie"
        let g2 : GameState := ⟨game.player_hand, p.1, status⟩
        (some g2, ⟨setGame st.games pid (some g2), p.2, st.stats⟩)

/-- `hit`: no-op returning `none` when the session is missing, not playing, or
a draw fails; otherwise append one drawn card to the player hand (mutating the
stored session), then: value over 21 sets `dealer_win`; value exactly 21
automatically runs `stand`; otherwise the session stays playing. -/
def hitGame (shuffle : List Card → List Card) (st : BJState) (pid : Int) :
    Option GameState × BJState :=
  match st.games pid with
  | none => (none, st)
  | some game =>
      if game.status ≠ "playing" then (none, st)
      else
        match drawCard shuffle st.deck with
        | (none, d1) => (none, ⟨st.games, d1, st.stats⟩)
        | (some c, d1) =>
            let ph := game.player_hand ++ [c]
            let player_value := calcHandValue ph
            if player_value > 21 then
              let g2 : GameState := ⟨ph, game.dealer_hand, "dealer_win"⟩
              (some g2, ⟨setGame st.games pid (some g2), d1, st.stats⟩)
            else if player_value = 21 then
              let g1 : GameState := ⟨ph, game.dealer_hand, game.status⟩
              standGame shuffle ⟨setGame st.games pid (some g1), d1, st.stats⟩ pid
            else
              let g2 : GameState := ⟨ph, game.dealer_hand, game.status⟩
              (some g2, ⟨setGame st.games pid (some g2), d1, st.stats⟩)

/-- `end_game`: when a session exists for `pid`, update the stats ledger with
its status unless it is still "playing", then delete the session (the deletion
happens for any existing session, whatever its status). -/
def endGame (st : BJState) (pid : Int) : BJState :=
  match st.games pid with
  | none => st
  | some game =>
      let stats2 :=
        if game.status ≠ "playing" then updateStats st.stats (toString pid) game.status
        else st.stats
      ⟨setGame st.games pid none, st.deck, stats2⟩

/-- A concrete in-play session: player K♦ 9♥ (19) against dealer K♥ 7♠ (17). -/
def examplePlaying : GameState :=
  ⟨[⟨Suit.diamonds, Rank.king⟩, ⟨Suit.hearts, Rank.nine⟩],
   [⟨Suit.hearts, Rank.king⟩, ⟨Suit.spades, Rank.seven⟩], "playing"⟩

/-- A concrete manager state holding `examplePlaying` for player 1. -/
def exampleState : BJState :=
  ⟨setGame (fun _ => none) 1 (some examplePlaying), [], emptyStats⟩

/-- A concrete finished session, won by the player. -/
def exampleWon : GameState :=
  ⟨[⟨Suit.spades, Rank.ace⟩, ⟨Suit.diamonds, Rank.king⟩],
   [⟨Suit.clubs, Rank.two⟩, ⟨Suit.hearts, Rank.nine⟩], "player_win"⟩

/-- A concrete manager state holding `exampleWon` for player 2. -/
def exampleWonState : BJState :=
  ⟨setGame (fun _ => none) 2 (some exampleWon), [], emptyStats⟩

/-- A concrete manager state with no sessions and an empty deck. -/
def exampleEmptyState : BJState :=
  ⟨fun _ => none, [], emptyStats⟩

end BartoBot

namespace BartoBot

/-- Every card contributes at least 1 to a hand's value. -/
theorem numericValue_pos (c : Card) : 1 ≤ c.numericValue := by
  rcases c with ⟨s, r⟩
  cases r <;> simp [Card.numericValue]

/-- The aces loop adds at least 1 per Ace to the running total. -/
theorem acesLoop_fst_ge (n fv sa : Nat) : fv + n ≤ (acesLoop n (fv, sa)).1 := by
  induction n generalizing fv sa with
  | zero => simp [acesLoop]
  | succ m ih =>
      simp only [acesLoop]
      by_cases hb : fv + 11 ≤ 21
      · have := ih (fv + 11) (sa + 1)
        simp only [if_pos hb]
        omega
      · have := ih (fv + 1) sa
        simp only [if_neg hb]
        omega

/-- The scorer never reports less than the hard total. -/
theorem hardValue_le_calc (hand : List Card) :
    hardValue hand ≤ calcHandValue hand := by
  have := acesLoop_fst_ge (countAces hand) (sumNonAces hand) 0
  simpa [calcHandValue, calcHandValueAces, hardValue] using this

/-- Appending a card raises the hard total by at least 1. -/
theorem hardValue_append (hand : List Card) (c : Card) :
    hardValue hand + 1 ≤ hardValue (hand ++ [c]) := by
  induction hand with
  | nil =>
      have := numericValue_pos c
      simp only [hardValue, sumNonAces, countAces, List.nil_append]
      by_cases hc : c.rank = Rank.ace
      · simp [hc]
      · simp only [if_neg hc]
        omega
  | cons d ds ih =>
      simp only [hardValue, sumNonAces, countAces, List.cons_append,
        List.append_eq] at ih ⊢
      omega

/-- `update_stats` changes the named player's counters exactly as the result
string dictates: one increment for the three recognised outcomes, nothing for
any other string. -/
theorem updateStats_self_counts (s : StatsStore) (k res : String) :
    statWins (updateStats s k res) k =
      statWins s k + (if res = "player_win" then 1 else 0) ∧
    statLosses (updateStats s k res) k =
      statLosses s k + (if res = "dealer_win" then 1 else 0) ∧
    statDraws (updateStats s k res) k =
      statDraws s k + (if res = "tie" then 1 else 0) := by
  unfold updateStats getPlayerStats statWins statLosses statDraws setStat
  cases hsk : s k with
  | none => split_ifs <;> simp_all
  | some r => split_ifs <;> simp_all

/-- `update_stats` never touches any other player's entry. -/
theorem updateStats_other (s : StatsStore) (k res q : String) (h : q ≠ k) :
    updateStats s k res q = s q := by
  unfold updateStats getPlayerStats setStat
  cases hsk : s k <;> simp [h]

/-- `get_player_stats` on an absent player returns a zero record and inserts
it into the store. -/
theorem getPlayerStats_absent (s : StatsStore) (k : String) (h : s k = none) :
    getPlayerStats s k = (⟨0, 0, 0⟩, setStat s k ⟨0, 0, 0⟩) := by
  unfold getPlayerStats
  simp [h]

/-- `get_player_stats` on a present player returns its record and leaves the
store untouched. -/
theorem getPlayerStats_present (s : StatsStore) (k : String) (r : PlayerStats)
    (h : s k = some r) : getPlayerStats s k = (r, s) := by
  unfold getPlayerStats
  simp [h]

/-- Claim C2 fails on the code: `end_game` deletes the session even when its
status is still "playing" (the `del` sits outside the status check).  Concrete
counterexample: player 1 holds `examplePlaying` (status "playing") in
`exampleState`, yet after `end_game` the session is gone from the store. -/
theorem C2_counterexample_playing_session_deleted :
    exampleState.games 1 = some examplePlaying ∧
    examplePlaying.status = "playing" ∧
    (endGame exampleState 1).games 1 = none := by
  refine ⟨by decide, rfl, by decide⟩

/-- Claim C2 as amended: `end_game` on an existing session always removes it
from the store, whatever its status; when the status is still "playing" the
stats ledger is untouched (only that half of the original claim survives), and
other players' sessions and the deck are untouched. -/
theorem C2_end_game_on_playing_amended (st : BJState) (pid : Int) (g : GameState)
    (h : st.games pid = some g) :
    (endGame st pid).games pid = none ∧
    (∀ q, q ≠ pid → (endGame st pid).games q = st.games q) ∧
    (endGame st pid).deck = st.deck ∧
    (g.status = "playing" → (endGame st pid).stats = st.stats) := by
  unfold endGame
  rw [h]
  refine ⟨by simp [setGame], fun q hq => by simp [setGame, hq], rfl, fun hp => by simp [hp]⟩

/-- Witness for the amended C2 at the concrete state `exampleState`. -/
theorem C2_end_game_on_playing_amended_witness :
    (endGame exampleState 1).games 1 = none ∧
    (∀ q, q ≠ 1 → (endGame exampleState 1).games q = exampleState.games q) ∧
    (endGame exampleState 1).deck = exampleState.deck ∧
    (examplePlaying.status = "playing" → (endGame exampleState 1).stats = exampleState.stats) :=
  C2_end_game_on_playing_amended exampleState 1 examplePlaying rfl

/-- Claim C6: finalizing a session whose status is "player_win" adds exactly 1
to that player's wins and nothing to losses or draws; "dealer_win" adds only
to losses, "tie" only to draws; in every case the session leaves the store. -/
theorem C6_finalize_updates_stats (st : BJState) (pid : Int) (g : GameState)
    (h : st.games pid = some g) :
    (endGame st pid).games pid = none ∧
    (g.status = "player_win" →
      statWins (endGame st pid).stats (toString pid) =
        statWins st.stats (toString pid) + 1 ∧
      statLosses (endGame st pid).stats (toString pid) =
        statLosses st.stats (toString pid) ∧
      statDraws (endGame st pid).stats (toString pid) =
        statDraws st.stats (toString pid)) ∧
    (g.status = "dealer_win" →
      statLosses (endGame st pid).stats (toString pid) =
        statLosses st.stats (toString pid) + 1 ∧
      statWins (endGame st pid).stats (toString pid) =
        statWins st.stats (toString pid) ∧
      statDraws (endGame st pid).stats (toString pid) =
        statDraws st.stats (toString pid)) ∧
    (g.status = "tie" →
      statDraws (endGame st pid).stats (toString pid) =
        statDraws st.stats (toString pid) + 1 ∧
      statWins (endGame st pid).stats (toString pid) =
        statWins st.stats (toString pid) ∧
      statLosses (endGame st pid).stats (toString pid) =
        statLosses st.stats (toString pid)) := by
  unfold endGame
  rw [h]
  have hu := updateStats_self_counts st.stats (toString pid) g.status
  refine ⟨by simp [setGame], fun hp => ?_, fun hp => ?_, fun hp => ?_⟩ <;>
    rw [hp] at hu <;> simp only [hp, if_neg, if_pos] <;> norm_num at hu ⊢ <;>
    simp [hu.1, hu.2.1, hu.2.2]

/-- Witness for C6 at the concrete "player_win" state `exampleWonState`. -/
theorem C6_finalize_updates_stats_witness :
    (endGame exampleWonState 2).games 2 = none ∧
    (statWins (endGame exampleWonState 2).stats (toString (2 : Int)) =
      statWins exampleWonState.stats (toString (2 : Int)) + 1 ∧
     statLosses (endGame exampleWonState 2).stats (toString (2 : Int)) =
      statLosses exampleWonState.stats (toString (2 : Int)) ∧
     statDraws (endGame exampleWonState 2).stats (toString (2 : Int)) =
      statDraws exampleWonState.stats (toString (2 : Int))) :=
  ⟨(C6_finalize_updates_stats exampleWonState 2 exampleWon rfl).1,
   (C6_finalize_updates_stats exampleWonState 2 exampleWon rfl).2.1 rfl⟩

/-- Claim C8: `start_game` while the player already has a stored session (of
any status) returns the "already active" signal `None` and leaves the whole
manager state — session store, deck and stats — exactly as it was; in
particular the existing session is never overwritten.  (The store is a map
from player id to at most one session, so the at-most-one-session invariant
is intrinsic to the state.) -/
theorem C8_start_while_active_noop (shuffle : List Card → List Card)
    (st : BJState) (pid : Int) (h : (st.games pid).isSome) :
    startGame shuffle st pid = some (none, st) := by
  unfold startGame
  simp [h]

/-- Witness for C8 at the concrete state `exampleState`. -/
theorem C8_start_while_active_noop_witness :
    startGame id exampleState 1 = some (none, exampleState) :=
  C8_start_while_active_noop id exampleState 1 (by decide)

/-- Claim C1: the one-pass greedy scorer `_calculate_hand_value` is claimed to
agree with the policy "use as many Aces as possible as 11 without busting" on
every hand of at most 21 cards.  It does not: on the three-card hand
[10♠, A♥, A♦] the code scores 22 (a bust) while the reference policy — and
correct blackjack, per the repository's own guide "Ace (A): Worth 1 or 11
(whichever benefits you more)" — scores 12.  The greedy pass commits the first
Ace to 11 without reserving 1 for the remaining Ace. -/
theorem C1_hand_scorer_bug :
    calcHandValue tenAceAce = 22 ∧
    refHandValue tenAceAce = 12 ∧
    tenAceAce.length ≤ 21 ∧
    calcHandValue tenAceAce ≠ refHandValue tenAceAce := by
  decide

/-- The unshuffled deck comprehension has 52 cards. -/
theorem fullDeck_length : fullDeck.length = 52 := by
  decide

/-- The unshuffled deck comprehension holds every card exactly once. -/
theorem fullDeck_count (c : Card) : fullDeck.count c = 1 := by
  revert c
  decide

/-- When the shuffle is a permutation, `_draw_card` always succeeds: on any
deck it returns some card. -/
theorem drawCard_some (shuffle : List Card → List Card)
    (hs : ∀ l, (shuffle l).Perm l) (deck : List Card) :
    ∃ c d1, drawCard shuffle deck = (some c, d1) := by
  unfold drawCard
  set d := if deck.isEmpty then createDeck shuffle else deck with hd
  have hne : d ≠ [] := by
    by_cases he : deck.isEmpty
    · have hlen : d.length = 52 := by
        rw [hd, if_pos he]
        have hp := (hs fullDeck).length_eq
        have hf : fullDeck.length = 52 := fullDeck_length
        simp [createDeck, hp, hf]
      intro hnil
      rw [hnil] at hlen
      simp at hlen
    · rw [hd, if_neg he]
      simpa [List.isEmpty_iff] using he
  have hie : d.isEmpty = false := by
    simpa [List.isEmpty_iff] using hne
  rw [if_neg (by simp [hie])]
  exact ⟨d.getLast hne, d.dropLast, by rw [List.getLast?_eq_getLast d hne]⟩

/-- When the shuffle is a permutation, `n` successive draws return exactly `n`
cards, across any number of reshuffles. -/
theorem drawCards_length (shuffle : List Card → List Card)
    (hs : ∀ l, (shuffle l).Perm l) :
    ∀ (n : Nat) (deck : List Card), ((drawCards shuffle n deck).1).length = n := by
  intro n
  induction n with
  | zero =>
      intro deck
      simp [drawCards]
  | succ m ih =>
      intro deck
      obtain ⟨c, d1, hdc⟩ := drawCard_some shuffle hs deck
      simp [drawCards, hdc, ih d1]

/-- Claim C9: drawing a card never fails — for every deck state the draw
returns some card; on an empty deck the draw operates on a freshly created
full deck (each of the 52 suit–rank combinations exactly once) and pops its
last card; and `n` successive draws yield exactly `n` cards. -/
theorem C9_draw_never_fails (shuffle : List Card → List Card)
    (hs : ∀ l, (shuffle l).Perm l) (deck : List Card) :
    (∃ c d1, drawCard shuffle deck = (some c, d1)) ∧
    (deck = [] →
      drawCard shuffle deck =
        ((createDeck shuffle).getLast?, (createDeck shuffle).dropLast) ∧
      (∀ c : Card, (createDeck shuffle).count c = 1) ∧
      (createDeck shuffle).length = 52) ∧
    (∀ n, ((drawCards shuffle n deck).1).length = n) := by
  refine ⟨drawCard_some shuffle hs deck, fun hdeck => ?_,
    fun n => drawCards_length shuffle hs n deck⟩
  subst hdeck
  have hlen : (createDeck shuffle).length = 52 := by
    have hp := (hs fullDeck).length_eq
    simp [createDeck, hp, fullDeck_length]
  have hie : (createDeck shuffle).isEmpty = false := by
    rcases hq : createDeck shuffle with _ | _
    · rw [hq] at hlen
      simp at hlen
    · simp
  refine ⟨?_, fun c => ?_, hlen⟩
  · unfold drawCard
    simp [hie]
  · have hp := hs fullDeck
    have := hp.count_eq c
    simpa [createDeck, fullDeck_count c] using this

/-- The dealer loop does not draw when the dealer value is already 17 or
more: it returns the hand and deck untouched. -/
theorem dealerLoop_stop (shuffle : List Card → List Card) (hand deck : List Card)
    (h : 17 ≤ calcHandValue hand) :
    dealerLoop shuffle hand deck = (hand, deck) := by
  have h2 : 17 ≤ (calcHandValueAces hand).1 := h
  rw [dealerLoop]
  rw [dif_pos h2]

/-- When the shuffle is a permutation, the dealer loop always exits with a
dealer value of at least 17 (it never stops below 17, because a draw never
fails). -/
theorem dealerLoop_ge17 (shuffle : List Card → List Card)
    (hs : ∀ l, (shuffle l).Perm l) :
    ∀ hand deck : List Card, 17 ≤ calcHandValue (dealerLoop shuffle hand deck).1 := by
  intro hand deck
  induction hand, deck using dealerLoop.induct shuffle with
  | case1 hand deck h17 =>
      rw [dealerLoop_stop shuffle hand deck h17]
      exact h17
  | case2 hand deck h17 d1 hdc =>
      obtain ⟨c, d2, hdc2⟩ := drawCard_some shuffle hs deck
      rw [hdc2] at hdc
      simp at hdc
  | case3 hand deck h17 c d1 hdc ih =>
      rw [dealerLoop, dif_neg h17, hdc]
      exact ih

/-- `stand` on a stored playing session: the dealer loop runs on the dealer
hand and deck, the status is set by the final comparison, and the finished
session is stored back. -/
theorem standGame_spec (shuffle : List Card → List Card) (st : BJState)
    (pid : Int) (g : GameState) (h : st.games pid = some g)
    (hp : g.status = "playing") :
    ∃ g2 : GameState,
      g2.player_hand = g.player_hand ∧
      g2.dealer_hand = (dealerLoop shuffle g.dealer_hand st.deck).1 ∧
      g2.status =
        (if calcHandValue g2.dealer_hand > 21 then "player_win"
         else if calcHandValue g2.dealer_hand > calcHandValue g.player_hand then "dealer_win"
         else if calcHandValue g2.dealer_hand < calcHandValue g.player_hand then "player_win"
         else "tie") ∧
      standGame shuffle st pid =
        (some g2, ⟨setGame st.games pid (some g2),
          (dealerLoop shuffle g.dealer_hand st.deck).2, st.stats⟩) := by
  refine ⟨⟨g.player_hand, (dealerLoop shuffle g.dealer_hand st.deck).1,
    if calcHandValue (dealerLoop shuffle g.dealer_hand st.deck).1 > 21 then "player_win"
    else if calcHandValue (dealerLoop shuffle g.dealer_hand st.deck).1 >
        calcHandValue g.player_hand then "dealer_win"
    else if calcHandValue (dealerLoop shuffle g.dealer_hand st.deck).1 <
        calcHandValue g.player_hand then "player_win"
    else "tie"⟩, rfl, rfl, rfl, ?_⟩
  unfold standGame
  rw [h]
  simp [hp]

/-- Claim C3: for every session in status "playing" when `stand` is called,
the final status is set by comparing the final dealer value (hard evaluation
of the post-loop dealer hand) with the player's value: over 21 means
"player_win", above the player means "dealer_win", below the player means
"player_win", equal means "tie"; the finished session is stored back for the
player. -/
theorem C3_stand_sets_status_by_comparison (shuffle : List Card → List Card)
    (st : BJState) (pid : Int) (g : GameState) (h : st.games pid = some g)
    (hp : g.status = "playing") :
    ∃ g2 st2, standGame shuffle st pid = (some g2, st2) ∧
      st2.games pid = some g2 ∧
      g2.player_hand = g.player_hand ∧
      g2.dealer_hand = (dealerLoop shuffle g.dealer_hand st.deck).1 ∧
      g2.status =
        (if calcHandValue g2.dealer_hand > 21 then "player_win"
         else if calcHandValue g2.dealer_hand > calcHandValue g.player_hand then "dealer_win"
         else if calcHandValue g2.dealer_hand < calcHandValue g.player_hand then "player_win"
         else "tie") := by
  obtain ⟨g2, hph, hdh, hstat, heq⟩ := standGame_spec shuffle st pid g h hp
  exact ⟨g2, _, heq, by simp [setGame], hph, hdh, hstat⟩

/-- Witness for C3 at `exampleState`: player 19 against dealer 17; the dealer
stands at once and the comparison yields "player_win". -/
theorem C3_stand_sets_status_by_comparison_witness :
    ∃ g2 st2, standGame id exampleState 1 = (some g2, st2) ∧
      st2.games 1 = some g2 ∧
      g2.player_hand = examplePlaying.player_hand ∧
      g2.dealer_hand = (dealerLoop id examplePlaying.dealer_hand exampleState.deck).1 ∧
      g2.status =
        (if calcHandValue g2.dealer_hand > 21 then "player_win"
         else if calcHandValue g2.dealer_hand > calcHandValue examplePlaying.player_hand then "dealer_win"
         else if calcHandValue g2.dealer_hand < calcHandValue examplePlaying.player_hand then "player_win"
         else "tie") :=
  C3_stand_sets_status_by_comparison id exampleState 1 examplePlaying rfl rfl

/-- Claim C4: the dealer auto-play loop (a total function here, so it
terminates) never draws when the dealer's soft-aware value is at least 17,
and — the shuffle being a permutation, so draws never fail — never stops
while that value is below 17: every exit, including via `stand` on a playing
session, has a final dealer value of at least 17. -/
theorem C4_dealer_loop_seventeen (shuffle : List Card → List Card)
    (hs : ∀ l, (shuffle l).Perm l) :
    (∀ hand deck : List Card, 17 ≤ calcHandValue hand →
      dealerLoop shuffle hand deck = (hand, deck)) ∧
    (∀ hand deck : List Card, 17 ≤ calcHandValue (dealerLoop shuffle hand deck).1) ∧
    (∀ (st : BJState) (pid : Int) (g : GameState), st.games pid = some g →
      g.status = "playing" →
      ∃ g2 st2, standGame shuffle st pid = (some g2, st2) ∧
        17 ≤ calcHandValue g2.dealer_hand) := by
  refine ⟨fun hand deck h => dealerLoop_stop shuffle hand deck h,
    fun hand deck => dealerLoop_ge17 shuffle hs hand deck,
    fun st pid g h hp => ?_⟩
  obtain ⟨g2, hph, hdh, hstat, heq⟩ := standGame_spec shuffle st pid g h hp
  refine ⟨g2, _, heq, ?_⟩
  rw [hdh]
  exact dealerLoop_ge17 shuffle hs g.dealer_hand st.deck

/-- Witness for C4 with the identity shuffle: a soft 17 (A♦ 6♠) stands at
once, and from an empty dealer hand the loop still exits at 17 or more. -/
theorem C4_dealer_loop_seventeen_witness :
    (dealerLoop id [⟨Suit.diamonds, Rank.ace⟩, ⟨Suit.spades, Rank.six⟩] [] =
      ([⟨Suit.diamonds, Rank.ace⟩, ⟨Suit.spades, Rank.six⟩], [])) ∧
    17 ≤ calcHandValue (dealerLoop id [] []).1 :=
  ⟨(C4_dealer_loop_seventeen id (fun l => List.Perm.refl l)).1
      [⟨Suit.diamonds, Rank.ace⟩, ⟨Suit.spades, Rank.six⟩] [] (by decide),
   (C4_dealer_loop_seventeen id (fun l => List.Perm.refl l)).2.1 [] []⟩

/-- Claim C5: `start_game` for a player with no stored session deals two
cards to the player and then two to the dealer (the first four draws, player
first), resolves naturals immediately off the dealer's up-card (the first
dealer card), and stores the session; the deck left behind is exactly the one
after those four draws — no further draws happen. -/
theorem C5_start_deals_and_resolves (shuffle : List Card → List Card)
    (hs : ∀ l, (shuffle l).Perm l) (st : BJState) (pid : Int)
    (h : st.games pid = none) :
    ∃ c1 c2 c3 c4 d4,
      drawCards shuffle 4 (if st.deck.isEmpty then createDeck shuffle else st.deck) =
        ([c1, c2, c3, c4], d4) ∧
      startGame shuffle st pid =
        some (some ⟨[c1, c2], [c3, c4],
            if isBlackjack [c1, c2] then
              if hasTenOrAce c3 then
                if isBlackjack [c3, c4] then "tie" else "player_win"
              else "player_win"
            else if isBlackjack [c3, c4] then "dealer_win"
            else "playing"⟩,
          ⟨setGame st.games pid (some ⟨[c1, c2], [c3, c4],
            if isBlackjack [c1, c2] then
              if hasTenOrAce c3 then
                if isBlackjack [c3, c4] then "tie" else "player_win"
              else "player_win"
            else if isBlackjack [c3, c4] then "dealer_win"
            else "playing"⟩), d4, st.stats⟩) := by
  obtain ⟨c1, d1, h1⟩ :=
    drawCard_some shuffle hs (if st.deck.isEmpty then createDeck shuffle else st.deck)
  obtain ⟨c2, d2, h2⟩ := drawCard_some shuffle hs d1
  obtain ⟨c3, d3, h3⟩ := drawCard_some shuffle hs d2
  obtain ⟨c4, d4, h4⟩ := drawCard_some shuffle hs d3
  have h1b : drawCard shuffle (if st.deck = [] then createDeck shuffle else st.deck) =
      (some c1, d1) := by
    simpa using h1
  refine ⟨c1, c2, c3, c4, d4, ?_, ?_⟩
  · simp [drawCards, h1b, h2, h3, h4]
  · unfold startGame
    simp [h, h1b, h2, h3, h4]

/-- Witness for C5: a fresh start from the empty manager state with the
identity shuffle. -/
theorem C5_start_deals_and_resolves_witness :
    ∃ c1 c2 c3 c4 d4,
      drawCards id 4 (if exampleEmptyState.deck.isEmpty then createDeck id
        else exampleEmptyState.deck) = ([c1, c2, c3, c4], d4) ∧
      startGame id exampleEmptyState 3 =
        some (some ⟨[c1, c2], [c3, c4],
            if isBlackjack [c1, c2] then
              if hasTenOrAce c3 then
                if isBlackjack [c3, c4] then "tie" else "player_win"
              else "player_win"
            else if isBlackjack [c3, c4] then "dealer_win"
            else "playing"⟩,
          ⟨setGame exampleEmptyState.games 3 (some ⟨[c1, c2], [c3, c4],
            if isBlackjack [c1, c2] then
              if hasTenOrAce c3 then
                if isBlackjack [c3, c4] then "tie" else "player_win"
              else "player_win"
            else if isBlackjack [c3, c4] then "dealer_win"
            else "playing"⟩), d4, exampleEmptyState.stats⟩) :=
  C5_start_deals_and_resolves id (fun l => List.Perm.refl l) exampleEmptyState 3 rfl

/-- Claim C7: `hit` returns `none` and changes nothing when the player has no
session or the session is not playing; otherwise it appends exactly one drawn
card to the player hand, busts to "dealer_win" above 21, automatically runs
`stand` (reaching a terminal status) at exactly 21, and stays "playing"
below 21. -/
theorem C7_hit_transitions (shuffle : List Card → List Card)
    (hs : ∀ l, (shuffle l).Perm l) (st : BJState) (pid : Int) :
    (st.games pid = none → hitGame shuffle st pid = (none, st)) ∧
    (∀ g, st.games pid = some g → g.status ≠ "playing" →
      hitGame shuffle st pid = (none, st)) ∧
    (∀ g, st.games pid = some g → g.status = "playing" →
      ∃ c d1, drawCard shuffle st.deck = (some c, d1) ∧
        (calcHandValue (g.player_hand ++ [c]) > 21 →
          hitGame shuffle st pid =
            (some ⟨g.player_hand ++ [c], g.dealer_hand, "dealer_win"⟩,
             ⟨setGame st.games pid
                (some ⟨g.player_hand ++ [c], g.dealer_hand, "dealer_win"⟩),
              d1, st.stats⟩)) ∧
        (calcHandValue (g.player_hand ++ [c]) = 21 →
          hitGame shuffle st pid =
            standGame shuffle
              ⟨setGame st.games pid
                 (some ⟨g.player_hand ++ [c], g.dealer_hand, "playing"⟩),
               d1, st.stats⟩ pid ∧
          ∃ g2, (hitGame shuffle st pid).1 = some g2 ∧
            (hitGame shuffle st pid).2.games pid = some g2 ∧
            g2.status ≠ "playing") ∧
        (calcHandValue (g.player_hand ++ [c]) < 21 →
          hitGame shuffle st pid =
            (some ⟨g.player_hand ++ [c], g.dealer_hand, "playing"⟩,
             ⟨setGame st.games pid
                (some ⟨g.player_hand ++ [c], g.dealer_hand, "playing"⟩),
              d1, st.stats⟩))) := by
  refine ⟨fun hno => by simp [hitGame, hno], fun g hg hnp => ?_, fun g hg hp => ?_⟩
  · unfold hitGame
    simp [hg, hnp]
  · obtain ⟨c, d1, hdc⟩ := drawCard_some shuffle hs st.deck
    refine ⟨c, d1, hdc, fun hbust => ?_, fun h21 => ?_, fun hlow => ?_⟩
    · unfold hitGame
      simp [hg, hp, hdc, hbust]
    · have hnb : ¬ calcHandValue (g.player_hand ++ [c]) > 21 := by omega
      have heq : hitGame shuffle st pid =
          standGame shuffle
            ⟨setGame st.games pid
               (some ⟨g.player_hand ++ [c], g.dealer_hand, "playing"⟩),
             d1, st.stats⟩ pid := by
        unfold hitGame
        simp [hg, hp, hdc, hnb, h21]
      refine ⟨heq, ?_⟩
      obtain ⟨g2, hph, hdh, hstat, hsg⟩ :=
        standGame_spec shuffle
          ⟨setGame st.games pid
             (some ⟨g.player_hand ++ [c], g.dealer_hand, "playing"⟩),
           d1, st.stats⟩ pid ⟨g.player_hand ++ [c], g.dealer_hand, "playing"⟩
          (by simp [setGame]) rfl
      refine ⟨g2, ?_, ?_, ?_⟩
      · rw [heq, hsg]
      · rw [heq, hsg]
        simp [setGame]
      · rw [hstat]
        split_ifs <;> decide
    · have hnb : ¬ calcHandValue (g.player_hand ++ [c]) > 21 := by omega
      have hne : ¬ calcHandValue (g.player_hand ++ [c]) = 21 := by omega
      unfold hitGame
      simp [hg, hp, hdc, hnb, hne]

/-- Witness for C7: on the empty manager state, `hit` for a player with no
session is a rejected no-op. -/
theorem C7_hit_transitions_witness :
    hitGame id exampleEmptyState 9 = (none, exampleEmptyState) :=
  (C7_hit_transitions id (fun l => List.Perm.refl l) exampleEmptyState 9).1 rfl

/-- On every store reachable from the empty one, all effective counters are
nonnegative. -/
theorem reachable_counts_nonneg (s : StatsStore) (hr : ReachableStats s) :
    ∀ q, 0 ≤ statWins s q ∧ 0 ≤ statLosses s q ∧ 0 ≤ statDraws s q := by
  induction hr with
  | empty =>
      intro q
      simp [statWins, statLosses, statDraws, emptyStats]
  | update s0 pid res hr0 ih =>
      intro q
      by_cases hq : q = pid
      · subst hq
        have hu := updateStats_self_counts s0 q res
        have hw : (0 : Int) ≤ if res = "player_win" then 1 else 0 := by
          split_ifs <;> norm_num
        have hl : (0 : Int) ≤ if res = "dealer_win" then 1 else 0 := by
          split_ifs <;> norm_num
        have hd : (0 : Int) ≤ if res = "tie" then 1 else 0 := by
          split_ifs <;> norm_num
        have := ih q
        omega
      · have ho := updateStats_other s0 pid res q hq
        simp only [statWins, statLosses, statDraws, ho]
        have := ih q
        simpa [statWins, statLosses, statDraws] using this
  | get s0 pid hr0 ih =>
      intro q
      cases hs0 : s0 pid with
      | some r0 =>
          rw [getPlayerStats_present s0 pid r0 hs0]
          exact ih q
      | none =>
          rw [getPlayerStats_absent s0 pid hs0]
          by_cases hq : q = pid
          · subst hq
            simp [statWins, statLosses, statDraws, setStat]
          · simp only [statWins, statLosses, statDraws, setStat, if_neg hq]
            have := ih q
            simpa [statWins, statLosses, statDraws] using this

/-- Claim C10: every reachable stats store holds only nonnegative counters;
`update_stats` changes exactly the counter selected by the result string, by
exactly 1 (no counter for an unrecognised string), touches no other player,
and never decreases any counter; `get_player_stats` never decreases a counter,
returns and inserts an all-zero record for an absent player, and returns the
stored record with the store untouched for a present one. -/
theorem C10_stats_ledger_invariants (s : StatsStore) (hr : ReachableStats s) :
    (∀ pid r, s pid = some r → 0 ≤ r.wins ∧ 0 ≤ r.losses ∧ 0 ≤ r.draws) ∧
    (∀ pid res,
      statWins (updateStats s pid res) pid =
        statWins s pid + (if res = "player_win" then 1 else 0) ∧
      statLosses (updateStats s pid res) pid =
        statLosses s pid + (if res = "dealer_win" then 1 else 0) ∧
      statDraws (updateStats s pid res) pid =
        statDraws s pid + (if res = "tie" then 1 else 0) ∧
      (∀ q, q ≠ pid → updateStats s pid res q = s q)) ∧
    (∀ pid res q,
      statWins s q ≤ statWins (updateStats s pid res) q ∧
      statLosses s q ≤ statLosses (updateStats s pid res) q ∧
      statDraws s q ≤ statDraws (updateStats s pid res) q) ∧
    (∀ pid q,
      statWins s q ≤ statWins (getPlayerStats s pid).2 q ∧
      statLosses s q ≤ statLosses (getPlayerStats s pid).2 q ∧
      statDraws s q ≤ statDraws (getPlayerStats s pid).2 q) ∧
    (∀ pid,
      (s pid = none →
        getPlayerStats s pid = (⟨0, 0, 0⟩, setStat s pid ⟨0, 0, 0⟩)) ∧
      (∀ r, s pid = some r → getPlayerStats s pid = (r, s))) := by
  refine ⟨fun pid r hpr => ?_, fun pid res => ?_, fun pid res q => ?_,
    fun pid q => ?_, fun pid =>
      ⟨fun hn => getPlayerStats_absent s pid hn,
       fun r hp => getPlayerStats_present s pid r hp⟩⟩
  · have := reachable_counts_nonneg s hr pid
    simpa [statWins, statLosses, statDraws, hpr] using this
  · exact ⟨(updateStats_self_counts s pid res).1,
      (updateStats_self_counts s pid res).2.1,
      (updateStats_self_counts s pid res).2.2,
      fun q hq => updateStats_other s pid res q hq⟩
  · by_cases hq : q = pid
    · subst hq
      have hu := updateStats_self_counts s q res
      have hw : (0 : Int) ≤ if res = "player_win" then 1 else 0 := by
        split_ifs <;> norm_num
      have hl : (0 : Int) ≤ if res = "dealer_win" then 1 else 0 := by
        split_ifs <;> norm_num
      have hd : (0 : Int) ≤ if res = "tie" then 1 else 0 := by
        split_ifs <;> norm_num
      omega
    · have ho := updateStats_other s pid res q hq
      simp [statWins, statLosses, statDraws, ho]
  · cases hs0 : s pid with
    | some r0 =>
        rw [getPlayerStats_present s pid r0 hs0]
        exact ⟨le_refl _, le_refl _, le_refl _⟩
    | none =>
        rw [getPlayerStats_absent s pid hs0]
        by_cases hq : q = pid
        · subst hq
          simp [statWins, statLosses, statDraws, setStat, hs0]
        · simp [statWins, statLosses, statDraws, setStat, if_neg hq]

/-- Witness for C10 at the empty store: reachability holds by construction,
and one `update_stats` call with "player_win" raises that player's wins from
0 to exactly 1. -/
theorem C10_stats_ledger_invariants_witness :
    (∀ pid r, emptyStats pid = some r → 0 ≤ r.wins ∧ 0 ≤ r.losses ∧ 0 ≤ r.draws) ∧
    statWins (updateStats emptyStats "7" "player_win") "7" =
      statWins emptyStats "7" + 1 := by
  have hc := C10_stats_ledger_invariants emptyStats ReachableStats.empty
  refine ⟨hc.1, ?_⟩
  have := (hc.2.1 "7" "player_win").1
  simpa using this

/-- Witness for C9 with the identity shuffle, starting from an empty deck. -/
theorem C9_draw_never_fails_witness :
    (∀ l : List Card, (id l).Perm l) ∧
    (∃ c d1, drawCard id [] = (some c, d1)) ∧
    ((drawCards id 5 []).1).length = 5 :=
  ⟨fun l => List.Perm.refl l,
   (C9_draw_never_fails id (fun l => List.Perm.refl l) []).1,
   (C9_draw_never_fails id (fun l => List.Perm.refl l) []).2.2 5⟩

end BartoBot
